import Mathlib

/-!
Shallow embedding of the mini-myos event distribution pipeline.

The three Lambda handlers under src/lambda are translated into pure Lean
functions over explicit store states:

* `Register.handler`  embeds src/lambda/register.ts  (agent registration);
* `Aggregator.handler` embeds the Kinesis fan-out handler of
  src/lambda/aggregator.ts (lines 12-52);
* `Publisher.handler` embeds src/lambda/publisher.ts (DynamoDB stream to
  SQS dispatch).

DynamoDB tables are modelled as Lean lists of records; a GSI query is the
order-preserving filter of the table, a `Query` on a table whose sort key
is `timestamp` with `ScanIndexForward=false` is a descending sort followed
by `take limit`, and `GetItem`/`PutItem` are keyed find/upsert.  SQS/queue
effects and store writes are returned in the result as effect logs rather
than performed, and the wall clock (`new Date().toISOString()`), the fresh
UUID and the queue URL returned by SQS are passed as explicit parameters.
Transport-level encodings (JSON / base64 of the Kinesis `data` field) are
abstracted: records arrive already decoded, as the handlers see them after
their first parsing step.
-/

/-- An item of the agents table (register.ts writes
`{resourceArn, agentId, queueUrl, createdAt}`; `queueUrl` is optional here
because publisher.ts guards against items lacking it). -/
structure Agent where
  agentId : String
  queueUrl : Option String
  resourceArn : String
  createdAt : String
deriving DecidableEq, Repr

/-- An item of the subscribers table, keyed by `(producerId, subscriberId)`. -/
structure Subscription where
  producerId : String
  subscriberId : String
deriving DecidableEq, Repr

/-- The decoded payload of one Kinesis record, as aggregator.ts uses it
after `JSON.parse` (only `timestamp` and `data` are read). -/
structure KEvent where
  timestamp : String
  data : String
deriving DecidableEq, Repr

/-- One record of a `KinesisStreamEvent` batch: the partition key and the
decoded payload. -/
structure KinesisRecord where
  partitionKey : String
  event : KEvent
deriving DecidableEq, Repr

/-- An item of the SubEvents table, keyed by `(subscriberId, timestamp)`. -/
structure SubRecord where
  subscriberId : String
  timestamp : String
  data : String
deriving DecidableEq, Repr

/-- The `NewImage` of a DynamoDB stream record; publisher.ts only reads
`NewImage.subscriberId?.S`. -/
structure NewImage where
  subscriberId : Option String
deriving DecidableEq, Repr

/-- One record of a `DynamoDBStreamEvent` batch: `eventName` together with
the optional `dynamodb.NewImage`. -/
structure StreamRecord where
  eventName : String
  newImage : Option NewImage
deriving DecidableEq, Repr

/-! ### Generic grouping

Both aggregator.ts and publisher.ts build a plain JS object used as a map
from a string key to an array, pushing each element onto the entry for its
key and creating the entry on first sight (`(groups[k] ??= []).push(v)`).
`Object.entries` then iterates entries in key-insertion order.  `updGroup`
appends a value to the first entry holding its key (there is at most one),
or appends a fresh entry at the end; `groupByKey` folds it over the input.
-/

def updGroup {β : Type} : List (String × List β) → String → β → List (String × List β)
  | [], k, v => [(k, [v])]
  | g :: gs, k, v =>
      if g.1 = k then (g.1, g.2 ++ [v]) :: gs else g :: updGroup gs k v

def groupByKey {β : Type} (l : List (String × β)) : List (String × List β) :=
  l.foldl (fun acc kv => updGroup acc kv.1 kv.2) []

/-- Weighted count over a grouping: the sum, over all entries, of a
per-key weight times the number of entry values satisfying `q`.  Used to
relate the fan-out of a grouped batch back to the flat batch. -/
def groupWeight {β : Type} (w : String → Nat) (q : β → Bool)
    (gs : List (String × List β)) : Nat :=
  (gs.map (fun g => w g.1 * g.2.countP q)).sum

/-- The entries of a grouping that carry the key `k`. -/
def entriesFor {β : Type} (k : String) (gs : List (String × List β)) :
    List (String × List β) :=
  gs.filter (fun g => decide (g.1 = k))

namespace Register

/-- The request body as the handler sees it after
`JSON.parse(event.body || "\x7b\x7d")`: either the parse threw
(`malformed`), or it yielded an object whose `resourceArn` field is the
given optional string (absent body parses to the empty object, i.e.
`ok none`). -/
inductive Body
  | malformed
  | ok (resourceArn : Option String)
deriving DecidableEq, Repr

/-- The observable outcome of one register invocation: the HTTP response
(status code plus the fields serialized into the body) and the effect logs
(FIFO queues created, agent items put). -/
structure Result where
  statusCode : Nat
  respAgentId : Option String
  respQueueUrl : Option String
  respResourceArn : Option String
  respError : Option String
  provisionedQueues : List String
  writes : List Agent
deriving DecidableEq, Repr

/-- Embedding of the handler of src/lambda/register.ts.  `store` is the
agents table, `freshId` the UUID `uuidv4()` would return, `now` the
current ISO timestamp and `sqsQueueUrl` the queue URL a successful
`CreateQueueCommand` reports.  The GSI query `resourceArn = :resourceArn`
is the order-preserving filter of the table and `Items[0]` its head. -/
def handler (store : List Agent) (body : Body)
    (freshId now sqsQueueUrl : String) : Result :=
  match body with
  | .malformed =>
      ⟨500, none, none, none, some "Internal server error", [], []⟩
  | .ok arnOpt =>
      match arnOpt with
      | none => ⟨400, none, none, none, some "resourceArn is required", [], []⟩
      | some resourceArn =>
          if resourceArn = "" then
            ⟨400, none, none, none, some "resourceArn is required", [], []⟩
          else
            match store.filter (fun a => decide (a.resourceArn = resourceArn)) with
            | agent :: _ =>
                ⟨200, some agent.agentId, agent.queueUrl, some agent.resourceArn,
                  none, [], []⟩
            | [] =>
                let queueName := "agents-" ++ freshId ++ ".fifo"
                let newAgent : Agent :=
                  ⟨freshId, some sqsQueueUrl, resourceArn, now⟩
                ⟨200, some freshId, some sqsQueueUrl, some resourceArn,
                  none, [queueName], [newAgent]⟩

/-- DynamoDB `PutItem` on the agents table: replace the item with the same
primary key `agentId`, or append when the key is new. -/
def putItem : List Agent → Agent → List Agent
  | [], item => [item]
  | a :: as, item =>
      if a.agentId = item.agentId then item :: as else a :: putItem as item

/-- One register invocation as a state transition: the result paired with
the agents table after the handler's writes are applied. -/
def step (store : List Agent) (body : Body)
    (freshId now sqsQueueUrl : String) : Result × List Agent :=
  let r := handler store body freshId now sqsQueueUrl
  (r, r.writes.foldl putItem store)

end Register

namespace Aggregator

/-- The observable outcome of one aggregator invocation: the returned
status code and the SubscriberEventRecords written, flattened in the order
the `BatchWriteCommand`s submit them. -/
structure Result where
  statusCode : Nat
  writes : List SubRecord
deriving DecidableEq, Repr

/-- The subscribers-table query of aggregator.ts
(`producerId = :pid`, projecting `subscriberId`). -/
def querySubscribers (subs : List Subscription) (pid : String) : List String :=
  (subs.filter (fun s => decide (s.producerId = pid))).map (fun s => s.subscriberId)

/-- Embedding of the Kinesis handler of src/lambda/aggregator.ts
(lines 12-52): group the batch by partition key, look the subscribers up
once per distinct producer, skip producers without subscribers, and write
one record per subscriber per event carrying the event's `timestamp` and
`data` unchanged. -/
def handler (subs : List Subscription) (batch : List KinesisRecord) : Result :=
  let groups := groupByKey (batch.map (fun r => (r.partitionKey, r.event)))
  let writes := groups.flatMap (fun g =>
    let subscribers := querySubscribers subs g.1
    if subscribers.isEmpty then []
    else subscribers.flatMap (fun sid =>
      g.2.map (fun e => SubRecord.mk sid e.timestamp e.data)))
  ⟨200, writes⟩

end Aggregator

namespace Publisher

/-- Descending timestamp order on SubEvents items, the order a DynamoDB
`Query` with `ScanIndexForward: false` returns them in. -/
def tsDesc (a b : SubRecord) : Prop := b.timestamp ≤ a.timestamp

instance : DecidableRel tsDesc := fun a b =>
  inferInstanceAs (Decidable (b.timestamp ≤ a.timestamp))

instance : IsTotal SubRecord tsDesc :=
  ⟨fun a b => le_total b.timestamp a.timestamp⟩

instance : IsTrans SubRecord tsDesc :=
  ⟨fun _ _ _ hab hbc => le_trans hbc hab⟩

/-- The SubEvents query of publisher.ts: the items with the given
partition key, in descending `timestamp` (sort key) order, limited to
`n`. -/
def queryDesc (table : List SubRecord) (sid : String) (n : Nat) : List SubRecord :=
  (((table.filter (fun r => decide (r.subscriberId = sid))).insertionSort tsDesc).take n)

/-- The per-record filter of publisher.ts (lines 32-42): a stream record
is acted on only when it is an INSERT, has a `NewImage`, and that image
has a truthy `subscriberId`; `pick` yields that subscriber id. -/
def pick (r : StreamRecord) : Option String :=
  if r.eventName = "INSERT" then
    match r.newImage with
    | none => none
    | some img =>
        match img.subscriberId with
        | none => none
        | some sid => if sid = "" then none else some sid
  else none

/-- The JS truthiness check `!agent?.queueUrl` on the registry lookup:
the inbox reference, or `none` when the item is missing, has no
`queueUrl`, or has an empty one. -/
def inboxOf : Option Agent → Option String
  | none => none
  | some a =>
      match a.queueUrl with
      | none => none
      | some u => if u = "" then none else some u

/-- The message handed to `SendMessageCommand`: the serialized dispatch
batch body. -/
structure DispatchMessage where
  subscriberId : String
  events : List SubRecord
  timestamp : String
deriving DecidableEq, Repr

/-- One `SendMessageCommand` as issued by publisher.ts.  The source passes
`QueueUrl`, `MessageBody` and `MessageGroupId` and omits the optional
`MessageDeduplicationId` parameter, so that field is always `none` here. -/
structure SentMessage where
  queueUrl : String
  body : DispatchMessage
  messageGroupId : String
  messageDeduplicationId : Option String
deriving DecidableEq, Repr

/-- The effect log of the per-subscriber loop: the SubEvents queries
issued (subscriber id and `Limit`), the registry lookups issued, and the
messages sent. -/
structure Effects where
  queries : List (String × Nat)
  lookups : List String
  sent : List SentMessage
deriving DecidableEq, Repr

/-- The observable outcome of one publisher invocation. -/
structure Result where
  statusCode : Nat
  queries : List (String × Nat)
  lookups : List String
  sent : List SentMessage
deriving DecidableEq, Repr

/-- The body of the `for (const [subscriberId, records] of
Object.entries(eventsBySubscriber))` loop of publisher.ts: query the
subscriber's history with `Limit` equal to the number of its stream
records, skip when it is empty, resolve the inbox (skipping when absent),
otherwise send the fetched slice as one group-keyed message. -/
def processGroups (st : List SubRecord) (ag : List Agent) (now : String) :
    List (String × List StreamRecord) → Effects
  | [] => ⟨[], [], []⟩
  | g :: gs =>
      let n := g.2.length
      let q := queryDesc st g.1 n
      let rest := processGroups st ag now gs
      if q.isEmpty then ⟨(g.1, n) :: rest.queries, rest.lookups, rest.sent⟩
      else
        match inboxOf (ag.find? (fun a => decide (a.agentId = g.1))) with
        | none => ⟨(g.1, n) :: rest.queries, g.1 :: rest.lookups, rest.sent⟩
        | some url =>
            ⟨(g.1, n) :: rest.queries, g.1 :: rest.lookups,
              SentMessage.mk url (DispatchMessage.mk g.1 q now) g.1 none :: rest.sent⟩

/-- Embedding of the handler of src/lambda/publisher.ts: filter the batch
down to INSERT records carrying a subscriber id, group them by subscriber,
and run the dispatch loop.  `st` is the SubEvents table, `ag` the agents
table, `now` the wall-clock ISO timestamp embedded in each message. -/
def handler (st : List SubRecord) (ag : List Agent)
    (batch : List StreamRecord) (now : String) : Result :=
  let pairs := batch.filterMap (fun r => (pick r).map (fun sid => (sid, r)))
  let groups := groupByKey pairs
  let eff := processGroups st ag now groups
  ⟨200, eff.queries, eff.lookups, eff.sent⟩

/-- The message one loop iteration sends for a group, if any: `none` on
the empty-history skip and on the missing-inbox skip. -/
def groupMsg (st : List SubRecord) (ag : List Agent) (now : String)
    (g : String × List StreamRecord) : Option SentMessage :=
  if (queryDesc st g.1 g.2.length).isEmpty then none
  else
    match inboxOf (ag.find? (fun a => decide (a.agentId = g.1))) with
    | none => none
    | some url =>
        some (SentMessage.mk url
          (DispatchMessage.mk g.1 (queryDesc st g.1 g.2.length) now) g.1 none)

end Publisher

/-! ## Lemmas and claim theorems -/

/-- When the GSI lookup finds at least one agent for the identity, the
handler returns the first found item's data with no effects. -/
lemma Register.handler_found (store : List Agent) (i freshId now qu : String)
    (ag : Agent) (rest : List Agent) (hne : i ≠ "")
    (hfound : store.filter (fun a => decide (a.resourceArn = i)) = ag :: rest) :
    Register.handler store (.ok (some i)) freshId now qu =
      ⟨200, some ag.agentId, ag.queueUrl, some ag.resourceArn, none, [], []⟩ := by
  simp only [Register.handler]
  rw [if_neg hne, hfound]

/-- Claim C1: register is idempotent on identity.  When the identity `i`
is already present in the agents store (the GSI filter is non-empty, with
first item `ag`), the handler answers 200 with the existing item's
`agentId` and `queueUrl`, provisions no queue, writes no item, leaves the
store unchanged, and therefore a second call — with arbitrary fresh UUID,
clock and queue URL — returns the same `agentId` and `queueUrl`. -/
theorem register_idempotent_on_identity
    (store : List Agent) (i freshId now qu freshId2 now2 qu2 : String)
    (ag : Agent) (rest : List Agent) (hne : i ≠ "")
    (hfound : store.filter (fun a => decide (a.resourceArn = i)) = ag :: rest) :
    (Register.step store (.ok (some i)) freshId now qu).1.statusCode = 200 ∧
    (Register.step store (.ok (some i)) freshId now qu).1.respAgentId = some ag.agentId ∧
    (Register.step store (.ok (some i)) freshId now qu).1.respQueueUrl = ag.queueUrl ∧
    (Register.step store (.ok (some i)) freshId now qu).1.provisionedQueues = [] ∧
    (Register.step store (.ok (some i)) freshId now qu).1.writes = [] ∧
    (Register.step store (.ok (some i)) freshId now qu).2 = store ∧
    (Register.step (Register.step store (.ok (some i)) freshId now qu).2
        (.ok (some i)) freshId2 now2 qu2).1.respAgentId
      = (Register.step store (.ok (some i)) freshId now qu).1.respAgentId ∧
    (Register.step (Register.step store (.ok (some i)) freshId now qu).2
        (.ok (some i)) freshId2 now2 qu2).1.respQueueUrl
      = (Register.step store (.ok (some i)) freshId now qu).1.respQueueUrl := by
  have h1 := Register.handler_found store i freshId now qu ag rest hne hfound
  have h2 := Register.handler_found store i freshId2 now2 qu2 ag rest hne hfound
  simp only [Register.step, h1, h2]
  simp [h2]

theorem register_idempotent_on_identity_witness :
    (Register.step [Agent.mk "A1" (some "Q1") "arn:x" "T0"] (.ok (some "arn:x"))
        "F" "N" "QU").1.statusCode = 200 ∧
    (Register.step [Agent.mk "A1" (some "Q1") "arn:x" "T0"] (.ok (some "arn:x"))
        "F" "N" "QU").1.respAgentId = some "A1" ∧
    (Register.step [Agent.mk "A1" (some "Q1") "arn:x" "T0"] (.ok (some "arn:x"))
        "F" "N" "QU").1.respQueueUrl = some "Q1" ∧
    (Register.step [Agent.mk "A1" (some "Q1") "arn:x" "T0"] (.ok (some "arn:x"))
        "F" "N" "QU").1.provisionedQueues = [] ∧
    (Register.step [Agent.mk "A1" (some "Q1") "arn:x" "T0"] (.ok (some "arn:x"))
        "F" "N" "QU").1.writes = [] ∧
    (Register.step [Agent.mk "A1" (some "Q1") "arn:x" "T0"] (.ok (some "arn:x"))
        "F" "N" "QU").2 = [Agent.mk "A1" (some "Q1") "arn:x" "T0"] ∧
    (Register.step (Register.step [Agent.mk "A1" (some "Q1") "arn:x" "T0"]
          (.ok (some "arn:x")) "F" "N" "QU").2 (.ok (some "arn:x")) "F2" "N2" "QU2").1.respAgentId
      = (Register.step [Agent.mk "A1" (some "Q1") "arn:x" "T0"] (.ok (some "arn:x"))
          "F" "N" "QU").1.respAgentId ∧
    (Register.step (Register.step [Agent.mk "A1" (some "Q1") "arn:x" "T0"]
          (.ok (some "arn:x")) "F" "N" "QU").2 (.ok (some "arn:x")) "F2" "N2" "QU2").1.respQueueUrl
      = (Register.step [Agent.mk "A1" (some "Q1") "arn:x" "T0"] (.ok (some "arn:x"))
          "F" "N" "QU").1.respQueueUrl :=
  register_idempotent_on_identity [Agent.mk "A1" (some "Q1") "arn:x" "T0"]
    "arn:x" "F" "N" "QU" "F2" "N2" "QU2" (Agent.mk "A1" (some "Q1") "arn:x" "T0") []
    (by decide) (by decide)

/-- Claim C7: a request whose parsed body lacks a `resourceArn` field, or
carries an empty one, is answered 400 with the validation error, with no
queue provisioned, no item written and the store unchanged. -/
theorem register_missing_identity_validation
    (store : List Agent) (freshId now qu : String) :
    Register.step store (.ok none) freshId now qu
      = (⟨400, none, none, none, some "resourceArn is required", [], []⟩, store) ∧
    Register.step store (.ok (some "")) freshId now qu
      = (⟨400, none, none, none, some "resourceArn is required", [], []⟩, store) := by
  constructor <;> rfl

/-- Claim C9: a request whose body is not valid JSON takes the catch-all
path: 500 with the generic internal error body, no lookup result used, no
queue provisioned, no item written and the store unchanged. -/
theorem register_malformed_body_internal_error
    (store : List Agent) (freshId now qu : String) :
    Register.step store .malformed freshId now qu
      = (⟨500, none, none, none, some "Internal server error", [], []⟩, store) := by
  rfl

/-- Claim C10: when the identity index holds more than one item for the
same identity (uniqueness violated), register deterministically answers
with the first item of the query result and performs no writes. -/
theorem register_duplicate_identity_first
    (store : List Agent) (i freshId now qu : String)
    (a b : Agent) (rest : List Agent) (hne : i ≠ "")
    (hdup : store.filter (fun x => decide (x.resourceArn = i)) = a :: b :: rest) :
    (Register.step store (.ok (some i)) freshId now qu).1.statusCode = 200 ∧
    (Register.step store (.ok (some i)) freshId now qu).1.respAgentId = some a.agentId ∧
    (Register.step store (.ok (some i)) freshId now qu).1.respQueueUrl = a.queueUrl ∧
    (Register.step store (.ok (some i)) freshId now qu).1.respResourceArn = some a.resourceArn ∧
    (Register.step store (.ok (some i)) freshId now qu).1.provisionedQueues = [] ∧
    (Register.step store (.ok (some i)) freshId now qu).1.writes = [] ∧
    (Register.step store (.ok (some i)) freshId now qu).2 = store := by
  have h1 := Register.handler_found store i freshId now qu a (b :: rest) hne hdup
  simp only [Register.step, h1]
  simp

theorem register_duplicate_identity_first_witness :
    (Register.step [Agent.mk "A1" (some "Q1") "arn:x" "T0",
        Agent.mk "A2" (some "Q2") "arn:x" "T1"] (.ok (some "arn:x"))
        "F" "N" "QU").1.statusCode = 200 ∧
    (Register.step [Agent.mk "A1" (some "Q1") "arn:x" "T0",
        Agent.mk "A2" (some "Q2") "arn:x" "T1"] (.ok (some "arn:x"))
        "F" "N" "QU").1.respAgentId = some "A1" ∧
    (Register.step [Agent.mk "A1" (some "Q1") "arn:x" "T0",
        Agent.mk "A2" (some "Q2") "arn:x" "T1"] (.ok (some "arn:x"))
        "F" "N" "QU").1.respQueueUrl = some "Q1" ∧
    (Register.step [Agent.mk "A1" (some "Q1") "arn:x" "T0",
        Agent.mk "A2" (some "Q2") "arn:x" "T1"] (.ok (some "arn:x"))
        "F" "N" "QU").1.respResourceArn = some "arn:x" ∧
    (Register.step [Agent.mk "A1" (some "Q1") "arn:x" "T0",
        Agent.mk "A2" (some "Q2") "arn:x" "T1"] (.ok (some "arn:x"))
        "F" "N" "QU").1.provisionedQueues = [] ∧
    (Register.step [Agent.mk "A1" (some "Q1") "arn:x" "T0",
        Agent.mk "A2" (some "Q2") "arn:x" "T1"] (.ok (some "arn:x"))
        "F" "N" "QU").1.writes = [] ∧
    (Register.step [Agent.mk "A1" (some "Q1") "arn:x" "T0",
        Agent.mk "A2" (some "Q2") "arn:x" "T1"] (.ok (some "arn:x"))
        "F" "N" "QU").2 = [Agent.mk "A1" (some "Q1") "arn:x" "T0",
        Agent.mk "A2" (some "Q2") "arn:x" "T1"] :=
  register_duplicate_identity_first
    [Agent.mk "A1" (some "Q1") "arn:x" "T0", Agent.mk "A2" (some "Q2") "arn:x" "T1"]
    "arn:x" "F" "N" "QU" (Agent.mk "A1" (some "Q1") "arn:x" "T0")
    (Agent.mk "A2" (some "Q2") "arn:x" "T1") [] (by decide) (by decide)

/-! ### Grouping lemmas -/

lemma groupWeight_updGroup {β : Type} (w : String → Nat) (q : β → Bool)
    (acc : List (String × List β)) (k : String) (v : β) :
    groupWeight w q (updGroup acc k v)
      = groupWeight w q acc + w k * (if q v then 1 else 0) := by
  induction acc with
  | nil => simp [updGroup, groupWeight, List.countP_cons]
  | cons g gs ih =>
      by_cases h : g.1 = k
      · simp only [updGroup]
        rw [if_pos h]
        simp only [groupWeight, List.map_cons, List.sum_cons, List.countP_append,
          List.countP_cons, List.countP_nil, h]
        ring
      · simp only [updGroup, if_neg h, groupWeight, List.map_cons, List.sum_cons] at *
        omega

lemma groupWeight_foldl {β : Type} (w : String → Nat) (q : β → Bool)
    (l : List (String × β)) :
    ∀ acc, groupWeight w q (l.foldl (fun a kv => updGroup a kv.1 kv.2) acc)
      = groupWeight w q acc
        + (l.map (fun kv => w kv.1 * (if q kv.2 then 1 else 0))).sum := by
  induction l with
  | nil => simp
  | cons kv l ih =>
      intro acc
      simp only [List.foldl_cons, List.map_cons, List.sum_cons]
      rw [ih, groupWeight_updGroup]
      omega

lemma groupWeight_groupByKey {β : Type} (w : String → Nat) (q : β → Bool)
    (l : List (String × β)) :
    groupWeight w q (groupByKey l)
      = (l.map (fun kv => w kv.1 * (if q kv.2 then 1 else 0))).sum := by
  have h := groupWeight_foldl w q l []
  simpa [groupByKey, groupWeight] using h

lemma sum_map_ite_count (l : List String) (s : String) (c : Nat) :
    (l.map (fun x => if x = s then c else 0)).sum
      = l.countP (fun x => decide (x = s)) * c := by
  induction l with
  | nil => simp
  | cons x xs ih =>
      simp only [List.map_cons, List.sum_cons, List.countP_cons, ih, Nat.add_mul]
      by_cases h : x = s
      · simp only [if_pos h, h, decide_eq_true_eq]
        simp
        omega
      · simp [h]

/-! ### Aggregator: fan-out counting -/

/-- The multiplicity of any target record among the aggregator's writes:
each batch record whose decoded event carries the target's `timestamp` and
`data` contributes once per matching subscription row of its partition
key.  This is the per-`(event, subscriber)` fan-out count of claim C2. -/
lemma aggregator_writes_countP (subs : List Subscription)
    (batch : List KinesisRecord) (s t d : String) :
    (Aggregator.handler subs batch).writes.countP
        (fun r => decide (r = SubRecord.mk s t d))
      = (batch.map (fun r =>
          (Aggregator.querySubscribers subs r.partitionKey).countP
              (fun x => decide (x = s))
          * (if r.event.timestamp = t ∧ r.event.data = d then 1 else 0))).sum := by
  simp only [Aggregator.handler]
  rw [List.countP_flatMap]
  have hper : ∀ g : String × List KEvent,
      ((List.countP (fun r => decide (r = SubRecord.mk s t d))) ∘
        (fun g : String × List KEvent =>
          if (Aggregator.querySubscribers subs g.1).isEmpty then []
          else (Aggregator.querySubscribers subs g.1).flatMap (fun sid =>
            g.2.map (fun e => SubRecord.mk sid e.timestamp e.data)))) g
      = (Aggregator.querySubscribers subs g.1).countP (fun x => decide (x = s))
          * g.2.countP (fun e => decide (e.timestamp = t ∧ e.data = d)) := by
    intro g
    simp only [Function.comp_apply]
    by_cases hemp : (Aggregator.querySubscribers subs g.1).isEmpty
    · have hnil : Aggregator.querySubscribers subs g.1 = [] :=
        List.isEmpty_iff.mp hemp
      simp [hemp, hnil]
    · rw [if_neg hemp, List.countP_flatMap]
      have hmap : ∀ sid : String,
          ((List.countP (fun r => decide (r = SubRecord.mk s t d))) ∘
            (fun sid => g.2.map (fun e => SubRecord.mk sid e.timestamp e.data))) sid
          = if sid = s
            then g.2.countP (fun e => decide (e.timestamp = t ∧ e.data = d))
            else 0 := by
        intro sid
        simp only [Function.comp_apply]
        rw [List.countP_map]
        by_cases hs : sid = s
        · subst hs
          rw [if_pos rfl]
          apply List.countP_congr
          intro e _
          simp [SubRecord.mk.injEq]
        · rw [if_neg hs]
          rw [List.countP_eq_zero]
          intro e _
          simp [SubRecord.mk.injEq, hs]
      rw [List.map_congr_left (fun sid _ => hmap sid)]
      rw [sum_map_ite_count]
  rw [List.map_congr_left (fun g _ => hper g)]
  have hgw := groupWeight_groupByKey
    (fun k => (Aggregator.querySubscribers subs k).countP (fun x => decide (x = s)))
    (fun e : KEvent => decide (e.timestamp = t ∧ e.data = d))
    (batch.map (fun r => (r.partitionKey, r.event)))
  simp only [groupWeight] at hgw
  rw [hgw, List.map_map]
  congr 1
  apply List.map_congr_left
  intro r _
  simp only [Function.comp_apply]
  by_cases hc : r.event.timestamp = t ∧ r.event.data = d
  · simp [hc]
  · simp [hc]

/-- Claim C2: fan-out completeness.  For every aggregator invocation, the
number of written SubscriberEventRecords equal to `⟨s, t, d⟩` is exactly
the number of batch events with timestamp `t` and data `d` — the payload
is passed through unchanged — weighted, per event, by the number of times
`s` occurs in the subscription lookup of that event's producer: one record
per event of producer `P` per subscriber of `P`. -/
theorem aggregator_fanout_completeness (subs : List Subscription)
    (batch : List KinesisRecord) (s t d : String) :
    (Aggregator.handler subs batch).writes.countP
        (fun r => decide (r = SubRecord.mk s t d))
      = (batch.map (fun r =>
          (Aggregator.querySubscribers subs r.partitionKey).countP
              (fun x => decide (x = s))
          * (if r.event.timestamp = t ∧ r.event.data = d then 1 else 0))).sum :=
  aggregator_writes_countP subs batch s t d

lemma sum_map_filter_of_zero {α : Type} (l : List α) (p : α → Bool) (f : α → Nat)
    (h : ∀ x ∈ l, p x = false → f x = 0) :
    ((l.filter p).map f).sum = (l.map f).sum := by
  induction l with
  | nil => simp
  | cons x xs ih =>
      have hrest : ∀ y ∈ xs, p y = false → f y = 0 :=
        fun y hy hf => h y (List.mem_cons_of_mem x hy) hf
      by_cases hp : p x
      · rw [List.filter_cons, if_pos hp]
        simp only [List.map_cons, List.sum_cons]
        rw [ih hrest]
      · have hx : f x = 0 := h x (List.mem_cons_self x xs) (by simpa using hp)
        rw [List.filter_cons, if_neg (by simpa using hp)]
        simp only [List.map_cons, List.sum_cons, hx]
        rw [ih hrest]
        omega

/-- Claim C5: no-subscriber drop.  When the subscription lookup of
producer `pid` is empty, the invocation still returns 200 and the write
multiset is exactly that of the batch with `pid`'s events removed: no
record is written for that producer's events, and other producers'
fan-out is unaffected. -/
theorem aggregator_no_subscriber_drop (subs : List Subscription)
    (batch : List KinesisRecord) (pid : String)
    (h : Aggregator.querySubscribers subs pid = []) :
    (Aggregator.handler subs batch).statusCode = 200 ∧
    ∀ s t d : String,
      (Aggregator.handler subs batch).writes.countP
          (fun r => decide (r = SubRecord.mk s t d))
        = (Aggregator.handler subs
            (batch.filter (fun r => decide (r.partitionKey ≠ pid)))).writes.countP
            (fun r => decide (r = SubRecord.mk s t d)) := by
  constructor
  · rfl
  · intro s t d
    rw [aggregator_writes_countP, aggregator_writes_countP]
    rw [sum_map_filter_of_zero]
    intro r _ hr
    have hpid : r.partitionKey = pid := by
      by_contra hc
      simp [hc] at hr
    rw [hpid, h]
    simp

theorem aggregator_no_subscriber_drop_witness :
    (Aggregator.handler [] [KinesisRecord.mk "p" (KEvent.mk "t0" "d0")]).statusCode = 200 ∧
    ∀ s t d : String,
      (Aggregator.handler [] [KinesisRecord.mk "p" (KEvent.mk "t0" "d0")]).writes.countP
          (fun r => decide (r = SubRecord.mk s t d))
        = (Aggregator.handler []
            ([KinesisRecord.mk "p" (KEvent.mk "t0" "d0")].filter
              (fun r => decide (r.partitionKey ≠ "p")))).writes.countP
            (fun r => decide (r = SubRecord.mk s t d)) :=
  aggregator_no_subscriber_drop [] [KinesisRecord.mk "p" (KEvent.mk "t0" "d0")] "p" rfl

/-! ### Publisher: loop characterization -/

lemma processGroups_sent (st : List SubRecord) (ag : List Agent) (now : String) :
    ∀ gs : List (String × List StreamRecord),
      (Publisher.processGroups st ag now gs).sent
        = gs.filterMap (Publisher.groupMsg st ag now) := by
  intro gs
  induction gs with
  | nil => rfl
  | cons g gs ih =>
      simp only [Publisher.processGroups]
      by_cases hq : (Publisher.queryDesc st g.1 g.2.length).isEmpty
      · simp [hq, List.filterMap_cons, Publisher.groupMsg, ih]
      · cases hio : Publisher.inboxOf (ag.find? (fun a => decide (a.agentId = g.1))) with
        | none => simp [hq, hio, List.filterMap_cons, Publisher.groupMsg, ih]
        | some url => simp [hq, hio, List.filterMap_cons, Publisher.groupMsg, ih]

lemma processGroups_queries (st : List SubRecord) (ag : List Agent) (now : String) :
    ∀ gs : List (String × List StreamRecord),
      (Publisher.processGroups st ag now gs).queries
        = gs.map (fun g => (g.1, g.2.length)) := by
  intro gs
  induction gs with
  | nil => rfl
  | cons g gs ih =>
      simp only [Publisher.processGroups]
      by_cases hq : (Publisher.queryDesc st g.1 g.2.length).isEmpty
      · simp [hq, ih]
      · cases hio : Publisher.inboxOf (ag.find? (fun a => decide (a.agentId = g.1))) with
        | none => simp [hq, hio, ih]
        | some url => simp [hq, hio, ih]

lemma handler_sent (st : List SubRecord) (ag : List Agent)
    (batch : List StreamRecord) (now : String) :
    (Publisher.handler st ag batch now).sent
      = (groupByKey (batch.filterMap
          (fun r => (Publisher.pick r).map (fun sid => (sid, r))))).filterMap
          (Publisher.groupMsg st ag now) := by
  simp [Publisher.handler, processGroups_sent]

lemma handler_queries (st : List SubRecord) (ag : List Agent)
    (batch : List StreamRecord) (now : String) :
    (Publisher.handler st ag batch now).queries
      = (groupByKey (batch.filterMap
          (fun r => (Publisher.pick r).map (fun sid => (sid, r))))).map
          (fun g => (g.1, g.2.length)) := by
  simp [Publisher.handler, processGroups_queries]

lemma groupMsg_groupId (st : List SubRecord) (ag : List Agent) (now : String)
    (g : String × List StreamRecord) (m : Publisher.SentMessage)
    (h : Publisher.groupMsg st ag now g = some m) : m.messageGroupId = g.1 := by
  simp only [Publisher.groupMsg] at h
  by_cases hq : (Publisher.queryDesc st g.1 g.2.length).isEmpty
  · rw [if_pos hq] at h
    exact Option.noConfusion h
  · rw [if_neg hq] at h
    cases hio : Publisher.inboxOf (ag.find? (fun a => decide (a.agentId = g.1))) with
    | none => rw [hio] at h; exact Option.noConfusion h
    | some url =>
        rw [hio] at h
        cases h
        rfl

lemma groupMsg_shape (st : List SubRecord) (ag : List Agent) (now : String)
    (g : String × List StreamRecord) (m : Publisher.SentMessage)
    (h : Publisher.groupMsg st ag now g = some m) :
    m.messageDeduplicationId = none ∧ m.body.timestamp = now := by
  simp only [Publisher.groupMsg] at h
  by_cases hq : (Publisher.queryDesc st g.1 g.2.length).isEmpty
  · rw [if_pos hq] at h
    exact Option.noConfusion h
  · rw [if_neg hq] at h
    cases hio : Publisher.inboxOf (ag.find? (fun a => decide (a.agentId = g.1))) with
    | none => rw [hio] at h; exact Option.noConfusion h
    | some url =>
        rw [hio] at h
        cases h
        exact ⟨rfl, rfl⟩

lemma queryDesc_sorted (table : List SubRecord) (sid : String) (n : Nat) :
    List.Sorted Publisher.tsDesc (Publisher.queryDesc table sid n) :=
  List.Pairwise.sublist (List.take_sublist _ _) (List.sorted_insertionSort _ _)

/-! ### Grouping: per-key entry characterization -/

lemma entriesFor_updGroup_nil {β : Type} (acc : List (String × List β))
    (k' : String) (v : β) (k : String) (h : entriesFor k acc = []) :
    entriesFor k (updGroup acc k' v) = if k' = k then [(k, [v])] else [] := by
  induction acc with
  | nil =>
      by_cases hk : k' = k
      · subst hk; simp [updGroup, entriesFor]
      · simp [updGroup, entriesFor, hk]
  | cons g gs ih =>
      have hg : ¬ g.1 = k := by
        intro hc
        simp [entriesFor, List.filter_cons, hc] at h
      have hgs : entriesFor k gs = [] := by
        simpa [entriesFor, List.filter_cons, hg] using h
      by_cases hk' : g.1 = k'
      · simp only [updGroup, if_pos hk']
        have hne : ¬ k' = k := fun hc => hg (hk'.trans hc)
        show List.filter (fun g => decide (g.1 = k)) ((g.1, g.2 ++ [v]) :: gs) = _
        rw [List.filter_cons, if_neg (by simpa using hg)]
        rw [show List.filter (fun g => decide (g.1 = k)) gs = [] from hgs]
        rw [if_neg hne]
      · simp only [updGroup, if_neg hk']
        show List.filter (fun g => decide (g.1 = k)) (g :: updGroup gs k' v) = _
        rw [List.filter_cons, if_neg (by simpa using hg)]
        exact ih hgs

lemma entriesFor_updGroup_one {β : Type} (acc : List (String × List β))
    (k' : String) (v : β) (k : String) (vs : List β)
    (h : entriesFor k acc = [(k, vs)]) :
    entriesFor k (updGroup acc k' v)
      = if k' = k then [(k, vs ++ [v])] else [(k, vs)] := by
  induction acc with
  | nil => simp [entriesFor] at h
  | cons g gs ih =>
      by_cases hg : g.1 = k
      · have hcons : g :: entriesFor k gs = [(k, vs)] := by
          simpa [entriesFor, List.filter_cons, hg] using h
        have hgv : g = (k, vs) := by injection hcons
        have hgs : entriesFor k gs = [] := by injection hcons
        subst hgv
        by_cases hk : k' = k
        · subst hk
          simp only [updGroup, if_pos (show ((k', vs) : String × List β).1 = k' from rfl)]
          show List.filter (fun g => decide (g.1 = k')) ((k', vs ++ [v]) :: gs) = _
          rw [List.filter_cons, if_pos (by simp)]
          rw [show List.filter (fun g => decide (g.1 = k')) gs = [] from hgs]
          simp
        · have hnil := entriesFor_updGroup_nil gs k' v k hgs
          rw [if_neg hk] at hnil
          have hck : ¬ ((k, vs) : String × List β).1 = k' := fun hc => hk hc.symm
          simp only [updGroup, if_neg hck]
          show List.filter (fun g => decide (g.1 = k)) ((k, vs) :: updGroup gs k' v) = _
          rw [List.filter_cons, if_pos (by simp)]
          rw [show List.filter (fun g => decide (g.1 = k)) (updGroup gs k' v) = [] from hnil]
          rw [if_neg hk]
      · have hgs : entriesFor k gs = [(k, vs)] := by
          simpa [entriesFor, List.filter_cons, hg] using h
        by_cases hk' : g.1 = k'
        · simp only [updGroup, if_pos hk']
          have hne : ¬ k' = k := fun hc => hg (hk'.trans hc)
          show List.filter (fun g => decide (g.1 = k)) ((g.1, g.2 ++ [v]) :: gs) = _
          rw [List.filter_cons, if_neg (by simpa using hg)]
          rw [show List.filter (fun g => decide (g.1 = k)) gs = [(k, vs)] from hgs]
          rw [if_neg hne]
        · simp only [updGroup, if_neg hk']
          show List.filter (fun g => decide (g.1 = k)) (g :: updGroup gs k' v) = _
          rw [List.filter_cons, if_neg (by simpa using hg)]
          exact ih hgs

lemma entriesFor_foldl_one {β : Type} (l : List (String × β)) :
    ∀ (acc : List (String × List β)) (k : String) (vs : List β),
      entriesFor k acc = [(k, vs)] →
      entriesFor k (l.foldl (fun a kv => updGroup a kv.1 kv.2) acc)
        = [(k, vs ++ (l.filter (fun kv => decide (kv.1 = k))).map (fun kv => kv.2))] := by
  induction l with
  | nil => intro acc k vs h; simpa using h
  | cons kv l ih =>
      intro acc k vs h
      simp only [List.foldl_cons]
      by_cases hk : kv.1 = k
      · have hupd := entriesFor_updGroup_one acc kv.1 kv.2 k vs h
        rw [if_pos hk] at hupd
        rw [ih _ _ _ hupd]
        simp [List.filter_cons, hk]
      · have hupd := entriesFor_updGroup_one acc kv.1 kv.2 k vs h
        rw [if_neg hk] at hupd
        rw [ih _ _ _ hupd]
        simp [List.filter_cons, hk]

lemma entriesFor_foldl_nil {β : Type} (l : List (String × β)) :
    ∀ (acc : List (String × List β)) (k : String),
      entriesFor k acc = [] →
      entriesFor k (l.foldl (fun a kv => updGroup a kv.1 kv.2) acc)
        = if (l.filter (fun kv => decide (kv.1 = k))).isEmpty then []
          else [(k, (l.filter (fun kv => decide (kv.1 = k))).map (fun kv => kv.2))] := by
  induction l with
  | nil => intro acc k h; simpa using h
  | cons kv l ih =>
      intro acc k h
      simp only [List.foldl_cons]
      by_cases hk : kv.1 = k
      · have hupd := entriesFor_updGroup_nil acc kv.1 kv.2 k h
        rw [if_pos hk] at hupd
        rw [entriesFor_foldl_one l _ _ _ hupd]
        simp [List.filter_cons, hk]
      · have hupd := entriesFor_updGroup_nil acc kv.1 kv.2 k h
        rw [if_neg hk] at hupd
        rw [ih _ _ hupd]
        have hfeq : List.filter (fun kv => decide (kv.1 = k)) (kv :: l)
            = List.filter (fun kv => decide (kv.1 = k)) l := by
          rw [List.filter_cons]
          simp [hk]
        rw [hfeq]

lemma entriesFor_groupByKey {β : Type} (l : List (String × β)) (k : String) :
    entriesFor k (groupByKey l)
      = if (l.filter (fun kv => decide (kv.1 = k))).isEmpty then []
        else [(k, (l.filter (fun kv => decide (kv.1 = k))).map (fun kv => kv.2))] :=
  entriesFor_foldl_nil l [] k rfl

lemma sent_filter_eq_entriesFor (st : List SubRecord) (ag : List Agent)
    (now : String) (gs : List (String × List StreamRecord)) (sid : String) :
    (gs.filterMap (Publisher.groupMsg st ag now)).filter
        (fun m => decide (m.messageGroupId = sid))
      = (entriesFor sid gs).filterMap (Publisher.groupMsg st ag now) := by
  induction gs with
  | nil => simp [entriesFor]
  | cons g gs ih =>
      cases hg : Publisher.groupMsg st ag now g with
      | none =>
          have hE : (entriesFor sid (g :: gs)).filterMap (Publisher.groupMsg st ag now)
              = (entriesFor sid gs).filterMap (Publisher.groupMsg st ag now) := by
            by_cases hk : g.1 = sid
            · simp [entriesFor, List.filter_cons, hk, List.filterMap_cons, hg]
            · simp [entriesFor, List.filter_cons, hk]
          rw [hE, ← ih]
          simp [List.filterMap_cons, hg]
      | some m =>
          have hid := groupMsg_groupId st ag now g m hg
          by_cases hk : g.1 = sid
          · have hms : m.messageGroupId = sid := hid.trans hk
            simp [List.filterMap_cons, hg, List.filter_cons, entriesFor, hk, hms, ih]
          · have hms : ¬ m.messageGroupId = sid := fun hc => hk (hid.symm.trans hc)
            simp [List.filterMap_cons, hg, List.filter_cons, entriesFor, hk, hms, ih]

lemma pairs_countP (batch : List StreamRecord) (sid : String) :
    (batch.filterMap (fun r => (Publisher.pick r).map (fun s => (s, r)))).countP
        (fun kv => decide (kv.1 = sid))
      = batch.countP (fun r => decide (Publisher.pick r = some sid)) := by
  induction batch with
  | nil => rfl
  | cons r bs ih =>
      cases hp : Publisher.pick r with
      | none => simp [List.filterMap_cons, hp, List.countP_cons, ih]
      | some x =>
          by_cases hx : x = sid
          · simp [List.filterMap_cons, hp, List.countP_cons, ih, hx]
          · simp [List.filterMap_cons, hp, List.countP_cons, ih, hx]

lemma groupMsg_eval (st : List SubRecord) (ag : List Agent) (now sid : String)
    (recs : List StreamRecord) (url : String)
    (hq : ¬ (Publisher.queryDesc st sid recs.length).isEmpty = true)
    (h3 : Publisher.inboxOf (ag.find? (fun a => decide (a.agentId = sid))) = some url) :
    Publisher.groupMsg st ag now (sid, recs)
      = some (Publisher.SentMessage.mk url
          (Publisher.DispatchMessage.mk sid (Publisher.queryDesc st sid recs.length) now)
          sid none) := by
  simp only [Publisher.groupMsg]
  rw [if_neg hq, h3]

/-- Claim C3: for every subscriber with `n` INSERT notifications in the
change-feed batch that passes the skip guards (non-empty re-read history,
registered inbox), the publisher issues the history query with limit `n`,
and enqueues exactly one message for that subscriber, whose events are
precisely the query result — the `n` most recent records in descending
(newest-first) `timestamp` order. -/
theorem publisher_rereads_history_desc
    (st : List SubRecord) (ag : List Agent) (batch : List StreamRecord)
    (now sid url : String)
    (h1 : batch.countP (fun r => decide (Publisher.pick r = some sid)) ≠ 0)
    (h2 : Publisher.queryDesc st sid
        (batch.countP (fun r => decide (Publisher.pick r = some sid))) ≠ [])
    (h3 : Publisher.inboxOf (ag.find? (fun a => decide (a.agentId = sid))) = some url) :
    (Publisher.handler st ag batch now).sent.filter
        (fun m => decide (m.messageGroupId = sid))
      = [Publisher.SentMessage.mk url
          (Publisher.DispatchMessage.mk sid
            (Publisher.queryDesc st sid
              (batch.countP (fun r => decide (Publisher.pick r = some sid)))) now)
          sid none] ∧
    List.Sorted Publisher.tsDesc
      (Publisher.queryDesc st sid
        (batch.countP (fun r => decide (Publisher.pick r = some sid)))) ∧
    (sid, batch.countP (fun r => decide (Publisher.pick r = some sid)))
      ∈ (Publisher.handler st ag batch now).queries := by
  set n := batch.countP (fun r => decide (Publisher.pick r = some sid)) with hn
  set pairs := batch.filterMap (fun r => (Publisher.pick r).map (fun s => (s, r)))
    with hpairs
  have hcnt : pairs.countP (fun kv => decide (kv.1 = sid)) = n := pairs_countP batch sid
  have hne : ¬ (pairs.filter (fun kv => decide (kv.1 = sid))).isEmpty = true := by
    rw [List.isEmpty_iff]
    intro hnil
    apply h1
    rw [← hcnt, List.countP_eq_length_filter, hnil]
    rfl
  have hE := entriesFor_groupByKey pairs sid
  rw [if_neg hne] at hE
  set recs := (pairs.filter (fun kv => decide (kv.1 = sid))).map (fun kv => kv.2)
    with hrecs
  have hlen : recs.length = n := by
    rw [hrecs, List.length_map, ← List.countP_eq_length_filter, hcnt]
  have hmem : (sid, recs) ∈ groupByKey pairs := by
    have hmem1 : (sid, recs) ∈ entriesFor sid (groupByKey pairs) := by
      rw [hE]
      exact List.mem_singleton.mpr rfl
    exact List.mem_of_mem_filter hmem1
  refine ⟨?_, queryDesc_sorted st sid n, ?_⟩
  · rw [handler_sent, sent_filter_eq_entriesFor, hE]
    have hq : ¬ (Publisher.queryDesc st sid recs.length).isEmpty = true := by
      rw [hlen, List.isEmpty_iff]
      exact h2
    have heval := groupMsg_eval st ag now sid recs url hq h3
    rw [List.filterMap_cons, heval, List.filterMap_nil, hlen]
  · rw [handler_queries]
    have hmap := List.mem_map_of_mem (fun g => (g.1, g.2.length)) hmem
    simpa [hlen] using hmap

theorem publisher_rereads_history_desc_witness :
    (Publisher.handler [SubRecord.mk "s1" "2025-01-01T00:00:00.000Z" "d1"]
        [Agent.mk "s1" (some "Q") "arn:s1" "T0"]
        [StreamRecord.mk "INSERT" (some (NewImage.mk (some "s1")))] "N").sent.filter
        (fun m => decide (m.messageGroupId = "s1"))
      = [Publisher.SentMessage.mk "Q"
          (Publisher.DispatchMessage.mk "s1"
            (Publisher.queryDesc [SubRecord.mk "s1" "2025-01-01T00:00:00.000Z" "d1"] "s1"
              ([StreamRecord.mk "INSERT" (some (NewImage.mk (some "s1")))].countP
                (fun r => decide (Publisher.pick r = some "s1")))) "N")
          "s1" none] ∧
    List.Sorted Publisher.tsDesc
      (Publisher.queryDesc [SubRecord.mk "s1" "2025-01-01T00:00:00.000Z" "d1"] "s1"
        ([StreamRecord.mk "INSERT" (some (NewImage.mk (some "s1")))].countP
          (fun r => decide (Publisher.pick r = some "s1")))) ∧
    ("s1", [StreamRecord.mk "INSERT" (some (NewImage.mk (some "s1")))].countP
        (fun r => decide (Publisher.pick r = some "s1")))
      ∈ (Publisher.handler [SubRecord.mk "s1" "2025-01-01T00:00:00.000Z" "d1"]
          [Agent.mk "s1" (some "Q") "arn:s1" "T0"]
          [StreamRecord.mk "INSERT" (some (NewImage.mk (some "s1")))] "N").queries :=
  publisher_rereads_history_desc
    [SubRecord.mk "s1" "2025-01-01T00:00:00.000Z" "d1"]
    [Agent.mk "s1" (some "Q") "arn:s1" "T0"]
    [StreamRecord.mk "INSERT" (some (NewImage.mk (some "s1")))]
    "N" "s1" "Q" (by decide) (by decide) (by decide)

lemma updGroup_filter_ne {β : Type} (acc : List (String × List β))
    (k' : String) (v : β) (k : String) :
    (updGroup acc k' v).filter (fun g => decide (g.1 ≠ k))
      = if k' = k then acc.filter (fun g => decide (g.1 ≠ k))
        else updGroup (acc.filter (fun g => decide (g.1 ≠ k))) k' v := by
  induction acc with
  | nil =>
      by_cases hk : k' = k
      · simp [updGroup, List.filter_cons, hk]
      · simp [updGroup, List.filter_cons, hk]
  | cons g gs ih =>
      by_cases hgk' : g.1 = k'
      · simp only [updGroup, if_pos hgk']
        by_cases hgk : g.1 = k
        · have hk : k' = k := hgk'.symm.trans hgk
          rw [if_pos hk]
          rw [List.filter_cons, if_neg (by simp [hgk]),
            List.filter_cons, if_neg (by simp [hgk])]
        · have hk : ¬ k' = k := fun hc => hgk (hgk'.trans hc)
          rw [if_neg hk]
          rw [List.filter_cons, if_pos (by simp [hgk]),
            List.filter_cons, if_pos (by simp [hgk])]
          simp [updGroup, hgk']
      · simp only [updGroup, if_neg hgk']
        by_cases hgk : g.1 = k
        · have hcond : ¬ ((decide (g.1 ≠ k)) = true) := by simp [hgk]
          rw [List.filter_cons, if_neg hcond, List.filter_cons, if_neg hcond]
          exact ih
        · have hcond : decide (g.1 ≠ k) = true := by simp [hgk]
          by_cases hk : k' = k
          · rw [if_pos hk]
            rw [List.filter_cons, if_pos hcond, List.filter_cons, if_pos hcond]
            rw [if_pos hk] at ih
            rw [ih]
          · rw [if_neg hk]
            rw [List.filter_cons, if_pos hcond, List.filter_cons, if_pos hcond]
            rw [if_neg hk] at ih
            rw [show updGroup (g :: List.filter (fun g => decide (g.1 ≠ k)) gs) k' v
                  = g :: updGroup (List.filter (fun g => decide (g.1 ≠ k)) gs) k' v from by
                simp [updGroup, hgk']]
            rw [ih]

lemma foldl_filter_ne {β : Type} (l : List (String × β)) (k : String) :
    ∀ acc : List (String × List β),
      (l.foldl (fun a kv => updGroup a kv.1 kv.2) acc).filter
          (fun g => decide (g.1 ≠ k))
        = (l.filter (fun kv => decide (kv.1 ≠ k))).foldl
            (fun a kv => updGroup a kv.1 kv.2)
            (acc.filter (fun g => decide (g.1 ≠ k))) := by
  induction l with
  | nil => intro acc; rfl
  | cons kv l ih =>
      intro acc
      simp only [List.foldl_cons]
      rw [ih]
      by_cases hk : kv.1 = k
      · rw [updGroup_filter_ne, if_pos hk]
        rw [List.filter_cons, if_neg (by simp [hk])]
      · rw [updGroup_filter_ne, if_neg hk]
        rw [List.filter_cons, if_pos (by simp [hk])]
        simp only [List.foldl_cons]

lemma groupByKey_filter_ne {β : Type} (l : List (String × β)) (k : String) :
    groupByKey (l.filter (fun kv => decide (kv.1 ≠ k)))
      = (groupByKey l).filter (fun g => decide (g.1 ≠ k)) := by
  rw [groupByKey, groupByKey, foldl_filter_ne]
  rfl

lemma filterMap_filter_of_none {γ δ : Type} (f : γ → Option δ) (p : γ → Bool)
    (l : List γ) (h : ∀ x ∈ l, p x = false → f x = none) :
    (l.filter p).filterMap f = l.filterMap f := by
  induction l with
  | nil => rfl
  | cons x xs ih =>
      have hrest : ∀ y ∈ xs, p y = false → f y = none :=
        fun y hy hf => h y (List.mem_cons_of_mem x hy) hf
      by_cases hp : p x
      · rw [List.filter_cons, if_pos hp, List.filterMap_cons, List.filterMap_cons]
        cases hfx : f x
        · rw [ih hrest]
        · rw [ih hrest]
      · have hfx : f x = none := h x (List.mem_cons_self x xs) (by simpa using hp)
        rw [List.filter_cons, if_neg (by simpa using hp), List.filterMap_cons, hfx,
          ih hrest]

lemma pairs_of_filtered_batch (batch : List StreamRecord) (sid : String) :
    (batch.filter (fun r => decide (Publisher.pick r ≠ some sid))).filterMap
        (fun r => (Publisher.pick r).map (fun s => (s, r)))
      = (batch.filterMap (fun r => (Publisher.pick r).map (fun s => (s, r)))).filter
          (fun kv => decide (kv.1 ≠ sid)) := by
  induction batch with
  | nil => rfl
  | cons r bs ih =>
      cases hp : Publisher.pick r with
      | none =>
          rw [List.filter_cons, if_pos (by simp [hp]), List.filterMap_cons, hp,
            List.filterMap_cons, hp]
          exact ih
      | some x =>
          by_cases hx : x = sid
          · subst hx
            simpa [List.filter_cons, List.filterMap_cons, hp] using ih
          · simpa [List.filter_cons, List.filterMap_cons, hp, hx] using ih

lemma groupMsg_none_of_no_inbox (st : List SubRecord) (ag : List Agent)
    (now sid : String) (g : String × List StreamRecord) (hk : g.1 = sid)
    (h : Publisher.inboxOf (ag.find? (fun a => decide (a.agentId = sid))) = none) :
    Publisher.groupMsg st ag now g = none := by
  simp only [Publisher.groupMsg]
  by_cases hq : (Publisher.queryDesc st g.1 g.2.length).isEmpty
  · rw [if_pos hq]
  · rw [if_neg hq, hk, h]

/-- Claim C6: when the registry lookup for subscriber `sid` yields no
usable inbox (no item, or an item without a truthy `queueUrl`), the
publisher still succeeds, enqueues nothing for `sid`, and the messages it
sends are exactly those it would send on the batch with `sid`'s
notifications removed — other subscribers are still delivered.  (The
embedding's publisher has no write channel to the SubEvents store: the
source only issues Query/Get/SendMessage, so stored records are
structurally unchanged.) -/
theorem publisher_skips_missing_inbox
    (st : List SubRecord) (ag : List Agent) (batch : List StreamRecord)
    (now sid : String)
    (h : Publisher.inboxOf (ag.find? (fun a => decide (a.agentId = sid))) = none) :
    (Publisher.handler st ag batch now).statusCode = 200 ∧
    (∀ m ∈ (Publisher.handler st ag batch now).sent, m.messageGroupId ≠ sid) ∧
    (Publisher.handler st ag batch now).sent
      = (Publisher.handler st ag
          (batch.filter (fun r => decide (Publisher.pick r ≠ some sid))) now).sent := by
  refine ⟨rfl, ?_, ?_⟩
  · intro m hm hcontra
    rw [handler_sent] at hm
    obtain ⟨g, _, hg⟩ := List.mem_filterMap.mp hm
    have hid := groupMsg_groupId st ag now g m hg
    have hgsid : g.1 = sid := hid.symm.trans hcontra
    rw [groupMsg_none_of_no_inbox st ag now sid g hgsid h] at hg
    exact Option.noConfusion hg
  · rw [handler_sent, handler_sent, pairs_of_filtered_batch, groupByKey_filter_ne]
    rw [filterMap_filter_of_none]
    intro g _ hgf
    have hgsid : g.1 = sid := by
      by_contra hc
      simp [hc] at hgf
    exact groupMsg_none_of_no_inbox st ag now sid g hgsid h

theorem publisher_skips_missing_inbox_witness :
    (Publisher.handler [SubRecord.mk "s1" "T1" "d1"] []
        [StreamRecord.mk "INSERT" (some (NewImage.mk (some "s1")))] "N").statusCode = 200 ∧
    (∀ m ∈ (Publisher.handler [SubRecord.mk "s1" "T1" "d1"] []
        [StreamRecord.mk "INSERT" (some (NewImage.mk (some "s1")))] "N").sent,
      m.messageGroupId ≠ "s1") ∧
    (Publisher.handler [SubRecord.mk "s1" "T1" "d1"] []
        [StreamRecord.mk "INSERT" (some (NewImage.mk (some "s1")))] "N").sent
      = (Publisher.handler [SubRecord.mk "s1" "T1" "d1"] []
          ([StreamRecord.mk "INSERT" (some (NewImage.mk (some "s1")))].filter
            (fun r => decide (Publisher.pick r ≠ some "s1"))) "N").sent :=
  publisher_skips_missing_inbox [SubRecord.mk "s1" "T1" "d1"] []
    [StreamRecord.mk "INSERT" (some (NewImage.mk (some "s1")))] "N" "s1" (by decide)

lemma filterMap_filter_isSome (batch : List StreamRecord) :
    (batch.filter (fun r => (Publisher.pick r).isSome)).filterMap
        (fun r => (Publisher.pick r).map (fun sid => (sid, r)))
      = batch.filterMap (fun r => (Publisher.pick r).map (fun sid => (sid, r))) := by
  induction batch with
  | nil => rfl
  | cons r bs ih =>
      cases hp : Publisher.pick r with
      | none =>
          rw [List.filter_cons, if_neg (by simp [hp]), List.filterMap_cons, hp]
          exact ih
      | some x =>
          rw [List.filter_cons, if_pos (by simp [hp]), List.filterMap_cons, hp,
            List.filterMap_cons, hp]
          rw [ih]

/-- Claim C8: the publisher acts only on INSERT records that carry a
`NewImage` with a truthy `subscriberId`.  Its whole observable result is
unchanged when all other records are removed from the batch, and a batch
consisting only of such records produces a successful result with no
queries, no registry lookups and no messages. -/
theorem publisher_ignores_non_insert (st : List SubRecord) (ag : List Agent)
    (batch : List StreamRecord) (now : String) :
    Publisher.handler st ag batch now
      = Publisher.handler st ag (batch.filter (fun r => (Publisher.pick r).isSome)) now ∧
    ((∀ r ∈ batch, Publisher.pick r = none) →
      Publisher.handler st ag batch now = ⟨200, [], [], []⟩) := by
  constructor
  · simp only [Publisher.handler]
    rw [filterMap_filter_isSome]
  · intro h
    have hnil : batch.filterMap (fun r => (Publisher.pick r).map (fun sid => (sid, r)))
        = [] := by
      rw [List.filterMap_eq_nil_iff]
      intro r hr
      rw [h r hr]
      rfl
    simp only [Publisher.handler, hnil]
    rfl

theorem publisher_ignores_non_insert_witness :
    Publisher.handler [] [] [StreamRecord.mk "MODIFY" (some (NewImage.mk (some "s1")))] "N"
      = ⟨200, [], [], []⟩ :=
  (publisher_ignores_non_insert [] []
    [StreamRecord.mk "MODIFY" (some (NewImage.mk (some "s1")))] "N").2 (by decide)

/-- Claim C4 (amended): the enqueue carries no deduplication token at all —
the source's `SendMessageCommand` passes only `QueueUrl`, `MessageBody` and
`MessageGroupId`, omitting `MessageDeduplicationId` — and every message
body embeds the invocation's wall-clock timestamp, so a redelivery of the
same change-feed batch at a different instant produces a different body
(defeating the queue's content-based deduplication). -/
theorem publisher_no_dedup_token (st : List SubRecord) (ag : List Agent)
    (batch : List StreamRecord) (now : String) :
    ∀ m ∈ (Publisher.handler st ag batch now).sent,
      m.messageDeduplicationId = none ∧ m.body.timestamp = now := by
  intro m hm
  rw [handler_sent] at hm
  obtain ⟨g, _, hg⟩ := List.mem_filterMap.mp hm
  exact groupMsg_shape st ag now g m hg

theorem publisher_no_dedup_token_witness :
    (Publisher.SentMessage.mk "Q2"
        (Publisher.DispatchMessage.mk "s2"
          [SubRecord.mk "s2" "2025-02-02T00:00:00.000Z" "d2"] "NW1")
        "s2" none).messageDeduplicationId = none ∧
    (Publisher.SentMessage.mk "Q2"
        (Publisher.DispatchMessage.mk "s2"
          [SubRecord.mk "s2" "2025-02-02T00:00:00.000Z" "d2"] "NW1")
        "s2" none).body.timestamp = "NW1" :=
  publisher_no_dedup_token [SubRecord.mk "s2" "2025-02-02T00:00:00.000Z" "d2"]
    [Agent.mk "s2" (some "Q2") "arn:s2" "T0"]
    [StreamRecord.mk "INSERT" (some (NewImage.mk (some "s2")))] "NW1"
    (Publisher.SentMessage.mk "Q2"
      (Publisher.DispatchMessage.mk "s2"
        [SubRecord.mk "s2" "2025-02-02T00:00:00.000Z" "d2"] "NW1")
      "s2" none)
    (by decide)

/-- Claim C4 as stated is false on the code: at this concrete change-feed
batch the single enqueued message carries no deduplication token
(`MessageDeduplicationId` is absent), and redelivering the identical batch
at a different wall-clock instant produces a different message body, so
the inbox's content-based deduplication does not collapse the two
deliveries. -/
theorem publisher_dedup_token_counterexample :
    ((Publisher.handler [SubRecord.mk "s1" "2025-01-01T00:00:00.000Z" "d1"]
        [Agent.mk "s1" (some "QX") "arn:s1" "T0"]
        [StreamRecord.mk "INSERT" (some (NewImage.mk (some "s1")))] "NA").sent.map
        (fun m => m.messageDeduplicationId)) = [none] ∧
    (Publisher.handler [SubRecord.mk "s1" "2025-01-01T00:00:00.000Z" "d1"]
        [Agent.mk "s1" (some "QX") "arn:s1" "T0"]
        [StreamRecord.mk "INSERT" (some (NewImage.mk (some "s1")))] "NA").sent.map
        (fun m => m.body)
      ≠ (Publisher.handler [SubRecord.mk "s1" "2025-01-01T00:00:00.000Z" "d1"]
          [Agent.mk "s1" (some "QX") "arn:s1" "T0"]
          [StreamRecord.mk "INSERT" (some (NewImage.mk (some "s1")))] "NB").sent.map
        (fun m => m.body) := by
  constructor
  · decide
  · decide
